import Mathlib

/-!
Verification development for the office-document-to-PDF batch converter
(`Word_Powerpoint_TO_pdf.py`).

The program is orchestration over a filesystem and two external converter
collaborators (Word and PowerPoint automation).  We embed it shallowly:

* a filesystem subtree is a list of `FileEntry` (relative path as a list of
  name segments, plus byte content);
* the external converters and the copy primitive are an `Oracle` (they either
  succeed, producing bytes, or fail — modelling the exceptions the source
  catches per file);
* `pathlib.Path.suffix` / `.stem` / `.name` semantics are reproduced at the
  character level (`pySuffix`, `pyStem`).

Definitions follow the source functions; their names match the Python
functions where Lean naming permits.
-/

namespace OfficeToPdf

/-- Index of the last `.` in a list of characters (Python `str.rfind('.')`),
`none` when there is no dot. -/
def lastDotIdx : List Char → Option Nat
  | [] => none
  | c :: cs =>
    match lastDotIdx cs with
    | some i => some (i + 1)
    | none => if c = '.' then some 0 else none

/-- `pathlib.Path.suffix` of a file *name*: the part from the last dot on,
provided that dot is neither the first character nor the last one; otherwise
the empty string. -/
def pySuffix (name : String) : String :=
  match lastDotIdx name.toList with
  | none => ""
  | some i =>
    if 0 < i ∧ i < name.toList.length - 1 then String.mk (name.toList.drop i) else ""

/-- `pathlib.Path.stem` of a file *name*: the name with `pySuffix` removed. -/
def pyStem (name : String) : String :=
  match lastDotIdx name.toList with
  | none => name
  | some i =>
    if 0 < i ∧ i < name.toList.length - 1 then String.mk (name.toList.take i) else name

/-- Python `str.lower()` on the ASCII range (every string the program
compares after lowering is ASCII): map `A`–`Z` to `a`–`z`. -/
def strLower (s : String) : String :=
  String.mk (s.toList.map Char.toLower)

/-- Python `str.upper()` on the ASCII range: map `a`–`z` to `A`–`Z`. -/
def strUpper (s : String) : String :=
  String.mk (s.toList.map Char.toUpper)

/-- Python `name.startswith('.')`: the first character is a dot. -/
def startsDot (name : String) : Bool :=
  match name.toList with
  | [] => false
  | c :: _ => c = '.'

/-- A regular file in a directory subtree: its path relative to the subtree
root, one string per path segment (the last segment is `Path.name`), and its
content bytes. -/
structure FileEntry where
  relPath : List String
  content : List Nat
deriving Repr, DecidableEq

/-- `Path.name` of a file entry: the last segment of its relative path. -/
def fileName (f : FileEntry) : String := f.relPath.getLastD ""

/-- The external collaborators, as oracles keyed by the source file's relative
path: `wordConv`/`pptConv` model `convert_doc_to_pdf`/`convert_pptx_to_pdf`
(success returns the produced PDF bytes, failure models the raised
`ValueError`), and `copyOk` models whether `shutil.copy2` succeeds. -/
structure Oracle where
  wordConv : List String → Option (List Nat)
  pptConv : List String → Option (List Nat)
  copyOk : List String → Bool

/-- `is_valid_office_file`: the file's suffix, lower-cased, is one of the four
office extensions. -/
def is_valid_office_file (name : String) : Bool :=
  [".doc", ".docx", ".ppt", ".pptx"].contains (strLower (pySuffix name))

/-- `convert_file_to_pdf`: the produced PDF path is
`output_dir / (stem ++ ".pdf")`; dispatch on the lower-cased suffix to the
Word or PowerPoint collaborator.  `none` models the `ValueError` raised on
collaborator failure (or on an unsupported suffix).  `output_dir` is given
relative to the output base; the returned path is the produced file's path
relative to the output base together with its bytes. -/
def convert_file_to_pdf (o : Oracle) (f : FileEntry) (output_dir : List String) :
    Option (List String × List Nat) :=
  let name := fileName f
  let pdfName := pyStem name ++ ".pdf"
  if strLower (pySuffix name) = ".doc" ∨ strLower (pySuffix name) = ".docx" then
    (o.wordConv f.relPath).map (fun b => (output_dir ++ [pdfName], b))
  else if strLower (pySuffix name) = ".ppt" ∨ strLower (pySuffix name) = ".pptx" then
    (o.pptConv f.relPath).map (fun b => (output_dir ++ [pdfName], b))
  else none

/-- One record of `converted_files`: the source file's path relative to the
traversal root, the produced file's path relative to the output base, and the
`type` tag. -/
structure ConversionRecord where
  original : List String
  pdf : List String
  type : String
deriving Repr, DecidableEq

/-- The state the `process_folder_recursive` loop threads: the
`converted_files` list, the `skipped_files` list, and the regular files
existing under the output base (each conversion or copy writes one; a later
write to the same path shadows an earlier one, so membership by path means
existence). -/
structure BatchResult where
  converted : List ConversionRecord
  skipped : List (List String)
  outputs : List FileEntry
deriving Repr, DecidableEq

/-- The output directory for one file, relative to the output base:
`file_path.parent.relative_to(folder_path)` when structure is preserved,
the output base itself otherwise. -/
def outDir (preserve_structure : Bool) (f : FileEntry) : List String :=
  if preserve_structure then f.relPath.dropLast else []

/-- The body of the `process_folder_recursive` loop for one regular file
`f`, threading the accumulated `BatchResult`.  Mirrors the source: the
reserved name `uploaded.zip` is excluded; office files are converted (failure
appends to `skipped_files`); `.pdf` files are copied byte-for-byte (failure
appends to `skipped_files`); anything else is appended to `skipped_files`
unless its name starts with `.` or its suffix is `.txt`/`.md`/`.log`. -/
def processOne (o : Oracle) (preserve_structure : Bool) (f : FileEntry)
    (acc : BatchResult) : BatchResult :=
  let name := fileName f
  if name = "uploaded.zip" then acc
  else if is_valid_office_file name then
    match convert_file_to_pdf o f (outDir preserve_structure f) with
    | some r =>
      { acc with
        converted := acc.converted ++
          [⟨f.relPath, r.1, strUpper (pySuffix name)⟩],
        outputs := acc.outputs ++ [⟨r.1, r.2⟩] }
    | none => { acc with skipped := acc.skipped ++ [f.relPath] }
  else if strLower (pySuffix name) = ".pdf" then
    if o.copyOk f.relPath then
      { acc with
        converted := acc.converted ++
          [⟨f.relPath, outDir preserve_structure f ++ [name], "PDF (copied)"⟩],
        outputs := acc.outputs ++ [⟨outDir preserve_structure f ++ [name], f.content⟩] }
    else { acc with skipped := acc.skipped ++ [f.relPath] }
  else
    if ¬ startsDot name ∧
        ¬ [".txt", ".md", ".log"].contains (strLower (pySuffix name)) then
      { acc with skipped := acc.skipped ++ [f.relPath] }
    else acc

/-- The `process_folder_recursive` loop over all regular files of the
traversal root's subtree (in `rglob` order). -/
def processBatch (o : Oracle) (preserve_structure : Bool)
    (files : List FileEntry) : BatchResult :=
  files.foldl (fun acc f => processOne o preserve_structure f acc) ⟨[], [], []⟩

/-- `process_folder_recursive`: raises `ValueError` when the traversal root is
not a directory (`isDir` models `folder_path.is_dir()`); otherwise runs the
loop over the subtree's regular files. -/
def process_folder_recursive (o : Oracle) (isDir : Bool)
    (files : List FileEntry) (preserve_structure : Bool) :
    Except String BatchResult :=
  if isDir then .ok (processBatch o preserve_structure files)
  else .error "The provided path is not a folder."

/-- One item of an upload widget's list: its `name` string (which may embed
`/` or `\` separators) and its bytes (`getvalue()`). -/
structure UploadedItem where
  name : String
  content : List Nat
deriving Repr, DecidableEq

/-- `file_name.replace('\\', '/')`: every backslash becomes a forward
slash. -/
def normalizeSeps (name : String) : String :=
  String.mk (name.toList.map (fun c => if c = '\\' then '/' else c))

/-- Split a character list at every character satisfying `p` (the separators
are dropped; empty groups are kept, as in Python `str.split`). -/
def splitChars (p : Char → Bool) : List Char → List (List Char)
  | [] => [[]]
  | c :: cs =>
    match splitChars p cs with
    | [] => [[]]
    | g :: gs => if p c then [] :: g :: gs else (c :: g) :: gs

/-- The segments `pathlib` parses out of a relative path string: split on `/`
and drop empty components (so `a//b` and `a/b/` both give `a`, `b`). -/
def pathSegs (s : String) : List String :=
  ((splitChars (fun c => c = '/') s.toList).map String.mk).filter
    (fun seg => seg ≠ "")

/-- Where `process_uploaded_files_with_structure` materializes one uploaded
item, relative to the staging root (`input_dir`): when the name embeds a
separator, normalize backslashes to slashes and let `input_dir / normalized`
parse the segments (all but the last are the directory chain, created with
`mkdir(parents=True)`; the last is the file written inside it); otherwise the
name itself directly under the staging root. -/
def stagePath (name : String) : List String :=
  if name.toList.contains '\\' ∨ name.toList.contains '/' then
    pathSegs (normalizeSeps name)
  else [name]

/-- The staging subtree after all uploaded items are written: one regular
file per item at its `stagePath` (items are written in order with `open(...,
"wb")`, so on a real filesystem a duplicate staged path keeps the last
item's bytes; the claims below assume staged paths are distinct). -/
def stagedFiles (uploaded : List UploadedItem) : List FileEntry :=
  uploaded.map (fun u => ⟨stagePath u.name, u.content⟩)

/-- What `process_uploaded_files_with_structure` hands back to its caller:
the two record lists, and the regular files existing under the returned
`output_dir` *at the moment the caller receives the result*. -/
structure UploadRun where
  converted : List ConversionRecord
  skipped : List (List String)
  outputFiles : List FileEntry
deriving Repr, DecidableEq

/-- `process_uploaded_files_with_structure`: stage the uploaded items
(creating directories from name separators), run `process_folder_recursive`
over the staging root (which exists, having just been created), and return
the records together with `output_dir`.  The `return` statement sits inside
the `with tempfile.TemporaryDirectory()` block, so the context manager's
cleanup deletes the whole temporary tree — `output_dir` and every produced
file under it — before the caller receives the value; hence the files
existing under the returned `output_dir` at that moment are `[]`. -/
def process_uploaded_files_with_structure (o : Oracle)
    (uploaded : List UploadedItem) (preserve_structure : Bool) : UploadRun :=
  let res := processBatch o preserve_structure (stagedFiles uploaded)
  ⟨res.converted, res.skipped, []⟩

/-- Join path segments with `/`, as `zipfile` renders an `arcname`. -/
def joinSegs : List String → String
  | [] => ""
  | [s] => s
  | s :: rest => s ++ "/" ++ joinSegs rest

/-- `create_zip_from_folder`: walk the folder's subtree and write every
regular file into the archive under its path relative to the folder, rendered
with `/` separators.  The archive is the list of (entry name, entry bytes)
pairs in write order. -/
def create_zip_from_folder (files : List FileEntry) :
    List (String × List Nat) :=
  files.map (fun f => (joinSegs f.relPath, f.content))

/-- `ZipFile.extractall`: each archive entry is written at the entry name's
path (parsed on `/`) under the extraction root, in entry order. -/
def extractall (archive : List (String × List Nat)) : List FileEntry :=
  archive.map (fun e => ⟨pathSegs e.1, e.2⟩)

/-- An uploaded archive: whether `zipfile.is_zipfile` accepts it, and the
subtree its extraction produces when it does. -/
structure ZipUpload where
  isZip : Bool
  entries : List FileEntry

/-- What the `handle_uploaded_zip` invocation surfaces: whether an error was
shown (`st.error`), and the two record lists handed back. -/
structure ZipOutcome where
  errorShown : Bool
  converted : List ConversionRecord
  skipped : List (List String)
deriving Repr, DecidableEq

/-- `handle_uploaded_zip`: a file `zipfile.is_zipfile` rejects shows a single
`st.error` and returns `([], [])` — no processing happens at all.  Otherwise
the archive is extracted into a freshly created directory and
`process_folder_recursive` runs over it (the `.error` arm models an exception
propagating to the top-level handler, which also shows a single `st.error`
with no records; it is unreachable here because the extraction directory was
just created). -/
def handle_uploaded_zip (o : Oracle) (z : ZipUpload)
    (preserve_structure : Bool) : ZipOutcome :=
  if ¬ z.isZip then ⟨true, [], []⟩
  else
    match process_folder_recursive o true z.entries preserve_structure with
    | .error _ => ⟨true, [], []⟩
    | .ok res => ⟨false, res.converted, res.skipped⟩

/-- The contribution of a single regular file to the batch: what the loop
body adds starting from empty accumulators. -/
def fileOutcome (o : Oracle) (preserve_structure : Bool) (f : FileEntry) :
    BatchResult :=
  processOne o preserve_structure f ⟨[], [], []⟩

theorem processOne_eq (o : Oracle) (p : Bool) (f : FileEntry)
    (acc : BatchResult) :
    processOne o p f acc =
      ⟨acc.converted ++ (fileOutcome o p f).converted,
       acc.skipped ++ (fileOutcome o p f).skipped,
       acc.outputs ++ (fileOutcome o p f).outputs⟩ := by
  unfold fileOutcome processOne
  dsimp only
  split
  · simp
  · split
    · split <;> simp
    · split
      · split <;> simp
      · split <;> simp

theorem foldl_processOne (o : Oracle) (p : Bool) (files : List FileEntry)
    (acc : BatchResult) :
    files.foldl (fun a g => processOne o p g a) acc =
      ⟨acc.converted ++ files.flatMap (fun g => (fileOutcome o p g).converted),
       acc.skipped ++ files.flatMap (fun g => (fileOutcome o p g).skipped),
       acc.outputs ++ files.flatMap (fun g => (fileOutcome o p g).outputs)⟩ := by
  induction files generalizing acc with
  | nil => simp
  | cons g gs ih =>
    rw [List.foldl_cons, processOne_eq, ih]
    simp

theorem processBatch_eq (o : Oracle) (p : Bool) (files : List FileEntry) :
    processBatch o p files =
      ⟨files.flatMap (fun g => (fileOutcome o p g).converted),
       files.flatMap (fun g => (fileOutcome o p g).skipped),
       files.flatMap (fun g => (fileOutcome o p g).outputs)⟩ := by
  unfold processBatch
  rw [foldl_processOne]
  simp

theorem office_not_uploaded_zip (name : String)
    (h : is_valid_office_file name = true) : name ≠ "uploaded.zip" := by
  intro he
  rw [he] at h
  exact absurd h (by decide)

theorem pdf_not_uploaded_zip (name : String)
    (h : strLower (pySuffix name) = ".pdf") : name ≠ "uploaded.zip" := by
  intro he
  rw [he] at h
  exact absurd h (by decide)

theorem office_false_of_pdf (name : String)
    (h : strLower (pySuffix name) = ".pdf") :
    is_valid_office_file name = false := by
  unfold is_valid_office_file
  rw [h]
  decide

theorem convert_some (o : Oracle) (f : FileEntry) (d : List String)
    (r : List String × List Nat) (h : convert_file_to_pdf o f d = some r) :
    r.1 = d ++ [pyStem (fileName f) ++ ".pdf"] := by
  unfold convert_file_to_pdf at h
  dsimp only at h
  split at h
  · cases hw : o.wordConv f.relPath with
    | none => rw [hw] at h; simp at h
    | some b => rw [hw] at h; simp at h; rw [← h]
  · split at h
    · cases hw : o.pptConv f.relPath with
      | none => rw [hw] at h; simp at h
      | some b => rw [hw] at h; simp at h; rw [← h]
    · exact absurd h (by simp)

theorem fileOutcome_excluded (o : Oracle) (p : Bool) (f : FileEntry)
    (h : fileName f = "uploaded.zip") : fileOutcome o p f = ⟨[], [], []⟩ := by
  unfold fileOutcome processOne
  dsimp only
  rw [if_pos h]

theorem fileOutcome_office_ok (o : Oracle) (p : Bool) (f : FileEntry)
    (r : List String × List Nat)
    (hoff : is_valid_office_file (fileName f) = true)
    (hconv : convert_file_to_pdf o f (outDir p f) = some r) :
    fileOutcome o p f =
      ⟨[⟨f.relPath, r.1, strUpper (pySuffix (fileName f))⟩], [], [⟨r.1, r.2⟩]⟩ := by
  unfold fileOutcome processOne
  dsimp only
  rw [if_neg (office_not_uploaded_zip _ hoff), if_pos hoff, hconv]
  simp

theorem fileOutcome_office_fail (o : Oracle) (p : Bool) (f : FileEntry)
    (hoff : is_valid_office_file (fileName f) = true)
    (hconv : convert_file_to_pdf o f (outDir p f) = none) :
    fileOutcome o p f = ⟨[], [f.relPath], []⟩ := by
  unfold fileOutcome processOne
  dsimp only
  rw [if_neg (office_not_uploaded_zip _ hoff), if_pos hoff, hconv]
  simp

theorem fileOutcome_pdf_ok (o : Oracle) (p : Bool) (f : FileEntry)
    (hpdf : strLower (pySuffix (fileName f)) = ".pdf")
    (hcopy : o.copyOk f.relPath = true) :
    fileOutcome o p f =
      ⟨[⟨f.relPath, outDir p f ++ [fileName f], "PDF (copied)"⟩], [],
       [⟨outDir p f ++ [fileName f], f.content⟩]⟩ := by
  unfold fileOutcome processOne
  dsimp only
  rw [if_neg (pdf_not_uploaded_zip _ hpdf), office_false_of_pdf _ hpdf]
  rw [if_neg (by simp), if_pos hpdf, if_pos hcopy]
  simp

theorem fileOutcome_pdf_fail (o : Oracle) (p : Bool) (f : FileEntry)
    (hpdf : strLower (pySuffix (fileName f)) = ".pdf")
    (hcopy : o.copyOk f.relPath = false) :
    fileOutcome o p f = ⟨[], [f.relPath], []⟩ := by
  unfold fileOutcome processOne
  dsimp only
  rw [if_neg (pdf_not_uploaded_zip _ hpdf), office_false_of_pdf _ hpdf]
  rw [if_neg (by simp), if_pos hpdf, if_neg (by simp [hcopy])]
  simp

theorem fileOutcome_other_skip (o : Oracle) (p : Bool) (f : FileEntry)
    (hnz : fileName f ≠ "uploaded.zip")
    (hoff : is_valid_office_file (fileName f) = false)
    (hpdf : strLower (pySuffix (fileName f)) ≠ ".pdf")
    (hdot : startsDot (fileName f) = false)
    (hallow : [".txt", ".md", ".log"].contains
      (strLower (pySuffix (fileName f))) = false) :
    fileOutcome o p f = ⟨[], [f.relPath], []⟩ := by
  unfold fileOutcome processOne
  dsimp only
  rw [if_neg hnz, hoff]
  rw [if_neg (by simp), if_neg hpdf,
    if_pos ⟨by simp [hdot], by rw [hallow]; simp⟩]
  simp

theorem fileOutcome_other_ignored (o : Oracle) (p : Bool) (f : FileEntry)
    (hnz : fileName f ≠ "uploaded.zip")
    (hoff : is_valid_office_file (fileName f) = false)
    (hpdf : strLower (pySuffix (fileName f)) ≠ ".pdf")
    (hrep : startsDot (fileName f) = true ∨
      [".txt", ".md", ".log"].contains (strLower (pySuffix (fileName f))) = true) :
    fileOutcome o p f = ⟨[], [], []⟩ := by
  unfold fileOutcome processOne
  dsimp only
  rw [if_neg hnz, hoff]
  rw [if_neg (by simp), if_neg hpdf, if_neg ?_]
  rcases hrep with h | h
  · exact fun hc => hc.1 h
  · exact fun hc => hc.2 h

theorem converted_original (o : Oracle) (p : Bool) (f : FileEntry) :
    ∀ c ∈ (fileOutcome o p f).converted, c.original = f.relPath := by
  unfold fileOutcome processOne
  dsimp only
  split
  · simp
  · split
    · split <;> simp
    · split
      · split <;> simp
      · split <;> simp

theorem skipped_eq (o : Oracle) (p : Bool) (f : FileEntry) :
    ∀ s ∈ (fileOutcome o p f).skipped, s = f.relPath := by
  unfold fileOutcome processOne
  dsimp only
  split
  · simp
  · split
    · split <;> simp
    · split
      · split <;> simp
      · split <;> simp

theorem converted_pdf_shape (o : Oracle) (p : Bool) (f : FileEntry) :
    ∀ c ∈ (fileOutcome o p f).converted, ∃ nm, c.pdf = outDir p f ++ [nm] := by
  unfold fileOutcome processOne
  dsimp only
  split
  · simp
  · split
    · split
      · rename_i r hconv
        intro c hc
        simp at hc
        refine ⟨pyStem (fileName f) ++ ".pdf", ?_⟩
        rw [hc]
        exact convert_some o f _ r hconv
      · simp
    · split
      · split <;> simp
      · split <;> simp

theorem strToList_append (a b : String) :
    (a ++ b).toList = a.toList ++ b.toList :=
  String.data_append a b

theorem strMk_ne_empty (xs : List Char) (h : xs ≠ []) : String.mk xs ≠ "" := by
  intro he
  exact h (String.ext_iff.mp he)

theorem toList_ne_nil (s : String) (hs : s ≠ "") : s.toList ≠ [] := by
  intro h
  apply hs
  cases s with
  | mk d =>
    have h' : d = [] := h
    rw [h']

theorem lastDotIdx_append_some (xs ys : List Char) (j : Nat)
    (h : lastDotIdx ys = some j) :
    lastDotIdx (xs ++ ys) = some (xs.length + j) := by
  induction xs with
  | nil => simpa using h
  | cons c cs ih =>
    rw [List.cons_append]
    unfold lastDotIdx
    rw [ih]
    simp
    omega


theorem lastDotIdx_pdf_append (s : String) :
    lastDotIdx ((s ++ ".pdf").toList) = some s.toList.length := by
  rw [strToList_append]
  have h0 : lastDotIdx ".pdf".toList = some 0 := by decide
  simpa using lastDotIdx_append_some s.toList ".pdf".toList 0 h0

theorem pySuffix_append_pdf (s : String) (hs : s ≠ "") :
    pySuffix (s ++ ".pdf") = ".pdf" := by
  have hlen : 0 < s.toList.length := List.length_pos.mpr (toList_ne_nil s hs)
  have hl4 : (s ++ ".pdf").toList.length = s.toList.length + 4 := by
    rw [strToList_append, List.length_append]
    rfl
  unfold pySuffix
  rw [lastDotIdx_pdf_append]
  dsimp only
  rw [if_pos ⟨hlen, by omega⟩]
  rw [strToList_append, List.drop_left]
  rfl

theorem pyStem_append_pdf (s : String) (hs : s ≠ "") :
    pyStem (s ++ ".pdf") = s := by
  have hlen : 0 < s.toList.length := List.length_pos.mpr (toList_ne_nil s hs)
  have hl4 : (s ++ ".pdf").toList.length = s.toList.length + 4 := by
    rw [strToList_append, List.length_append]
    rfl
  unfold pyStem
  rw [lastDotIdx_pdf_append]
  dsimp only
  rw [if_pos ⟨hlen, by omega⟩]
  rw [strToList_append, List.take_left]
  cases s
  rfl

theorem pySuffix_ne_empty_of_office (name : String)
    (h : is_valid_office_file name = true) : pySuffix name ≠ "" := by
  intro he
  unfold is_valid_office_file at h
  rw [he] at h
  exact absurd h (by decide)

theorem pyStem_ne_empty_of_office (name : String)
    (h : is_valid_office_file name = true) : pyStem name ≠ "" := by
  have hsuf := pySuffix_ne_empty_of_office name h
  unfold pySuffix at hsuf
  unfold pyStem
  cases hd : lastDotIdx name.toList with
  | none =>
    rw [hd] at hsuf
    exact absurd rfl hsuf
  | some i =>
    rw [hd] at hsuf
    dsimp only at hsuf ⊢
    by_cases hc : 0 < i ∧ i < name.toList.length - 1
    · rw [if_pos hc]
      apply strMk_ne_empty
      intro he
      have : (name.toList.take i).length = 0 := by rw [he]; rfl
      rw [List.length_take] at this
      omega
    · rw [if_neg hc] at hsuf
      exact absurd rfl hsuf

theorem getLastD_snoc (l : List String) (a d : String) :
    (l ++ [a]).getLastD d = a := by
  exact List.getLastD_concat d a l

theorem filter_orig_self (o : Oracle) (p : Bool) (f : FileEntry) :
    (fileOutcome o p f).converted.filter (fun c => c.original = f.relPath)
      = (fileOutcome o p f).converted :=
  List.filter_eq_self.mpr (fun c hc => by
    simp [converted_original o p f c hc])

theorem filter_orig_nil (o : Oracle) (p : Bool) (gs : List FileEntry)
    (q : List String) (hq : ∀ g ∈ gs, g.relPath ≠ q) :
    (gs.flatMap (fun g => (fileOutcome o p g).converted)).filter
      (fun c => c.original = q) = [] := by
  rw [List.filter_eq_nil_iff]
  intro c hc
  rcases List.mem_flatMap.mp hc with ⟨g, hg, hcg⟩
  rw [converted_original o p g c hcg]
  simpa using hq g hg

theorem converted_filter_count (o : Oracle) (p : Bool) (files : List FileEntry)
    (f : FileEntry) (hnodup : (files.map FileEntry.relPath).Nodup)
    (hmem : f ∈ files) :
    ((files.flatMap (fun g => (fileOutcome o p g).converted)).filter
      (fun c => c.original = f.relPath)).length
      = (fileOutcome o p f).converted.length := by
  induction files with
  | nil => cases hmem
  | cons g gs ih =>
    rw [List.map_cons, List.nodup_cons] at hnodup
    rw [List.flatMap_cons, List.filter_append, List.length_append]
    rcases List.mem_cons.mp hmem with he | hm
    · subst he
      rw [filter_orig_self, filter_orig_nil]
      · simp
      · intro g hg hgf
        exact hnodup.1 (hgf ▸ List.mem_map_of_mem FileEntry.relPath hg)
    · have hne : g.relPath ≠ f.relPath := by
        intro he
        exact hnodup.1 (he ▸ List.mem_map_of_mem FileEntry.relPath hm)
      have h0 : ((fileOutcome o p g).converted.filter
          (fun c => c.original = f.relPath)) = [] := by
        rw [List.filter_eq_nil_iff]
        intro c hc
        rw [converted_original o p g c hc]
        simpa using hne
      rw [h0]
      simpa using ih hnodup.2 hm

theorem mem_converted_of_orig (o : Oracle) (p : Bool) (files : List FileEntry)
    (f : FileEntry) (c : ConversionRecord)
    (hnodup : (files.map FileEntry.relPath).Nodup) (hmem : f ∈ files)
    (hc : c ∈ files.flatMap (fun g => (fileOutcome o p g).converted))
    (horig : c.original = f.relPath) :
    c ∈ (fileOutcome o p f).converted := by
  rcases List.mem_flatMap.mp hc with ⟨g, hg, hcg⟩
  have : g = f := by
    apply List.inj_on_of_nodup_map hnodup hg hmem
    rw [← converted_original o p g c hcg, horig]
  exact this ▸ hcg

theorem process_folder_recursive_dir (o : Oracle) (files : List FileEntry)
    (p : Bool) :
    process_folder_recursive o true files p = .ok (processBatch o p files) :=
  rfl

/-- C1: For every input file whose extension, compared case-insensitively, is
one of `.doc`, `.docx`, `.ppt`, `.pptx`, a successful run produces exactly one
`ConversionRecord` for that file, and the record's produced path has extension
`.pdf` and a stem equal to the input file's stem. -/
theorem c1_office_unique_pdf_record (o : Oracle) (files : List FileEntry)
    (p : Bool) (f : FileEntry) (r : List String × List Nat)
    (hnodup : (files.map FileEntry.relPath).Nodup)
    (hmem : f ∈ files)
    (hoffice : is_valid_office_file (fileName f) = true)
    (hsucc : convert_file_to_pdf o f (outDir p f) = some r) :
    ∃ res, process_folder_recursive o true files p = Except.ok res ∧
      (res.converted.filter (fun c => c.original = f.relPath)).length = 1 ∧
      ∀ c ∈ res.converted, c.original = f.relPath →
        pySuffix (c.pdf.getLastD "") = ".pdf" ∧
        pyStem (c.pdf.getLastD "") = pyStem (fileName f) := by
  refine ⟨processBatch o p files, process_folder_recursive_dir o files p, ?_, ?_⟩
  · rw [processBatch_eq]
    dsimp only
    rw [converted_filter_count o p files f hnodup hmem,
      fileOutcome_office_ok o p f r hoffice hsucc]
    rfl
  · intro c hc horig
    rw [processBatch_eq] at hc
    dsimp only at hc
    have hcf := mem_converted_of_orig o p files f c hnodup hmem hc horig
    rw [fileOutcome_office_ok o p f r hoffice hsucc] at hcf
    have hceq : c = ⟨f.relPath, r.1, strUpper (pySuffix (fileName f))⟩ := by
      simpa using hcf
    have hr1 : r.1 = outDir p f ++ [pyStem (fileName f) ++ ".pdf"] :=
      convert_some o f (outDir p f) r hsucc
    have hstem : pyStem (fileName f) ≠ "" := pyStem_ne_empty_of_office _ hoffice
    subst hceq
    dsimp only
    rw [hr1, getLastD_snoc]
    exact ⟨pySuffix_append_pdf _ hstem, pyStem_append_pdf _ hstem⟩

/-- A concrete collaborator assignment for the closed witnesses: both
converters succeed with PDF bytes `[0]`, copying succeeds. -/
def demoOracle : Oracle :=
  ⟨fun _ => some [0], fun _ => some [0], fun _ => true⟩

/-- Concrete input file `reports/q1.docx` for the closed witnesses. -/
def demoDocx : FileEntry := ⟨["reports", "q1.docx"], [1]⟩

theorem c1_office_unique_pdf_record_witness :
    ([demoDocx].map FileEntry.relPath).Nodup ∧
    demoDocx ∈ [demoDocx] ∧
    is_valid_office_file (fileName demoDocx) = true ∧
    convert_file_to_pdf demoOracle demoDocx (outDir true demoDocx)
      = some (["reports", "q1.pdf"], [0]) ∧
    (∃ res,
      process_folder_recursive demoOracle true [demoDocx] true = Except.ok res ∧
      (res.converted.filter (fun c => c.original = demoDocx.relPath)).length = 1 ∧
      ∀ c ∈ res.converted, c.original = demoDocx.relPath →
        pySuffix (c.pdf.getLastD "") = ".pdf" ∧
        pyStem (c.pdf.getLastD "") = pyStem (fileName demoDocx)) :=
  ⟨by decide, by simp, by decide, by decide,
   c1_office_unique_pdf_record demoOracle [demoDocx] true demoDocx
     (["reports", "q1.pdf"], [0]) (by decide) (by simp) (by decide) (by decide)⟩

/-- C2: For every input file with extension `.pdf`, the batch converter (its
copy primitive succeeding) copies it to the mirrored output location, and the
output file's bytes are identical to the input file's bytes. -/
theorem c2_pdf_copied_byte_identical (o : Oracle) (files : List FileEntry)
    (p : Bool) (f : FileEntry)
    (hmem : f ∈ files)
    (hpdf : strLower (pySuffix (fileName f)) = ".pdf")
    (hcopy : o.copyOk f.relPath = true) :
    ∃ res, process_folder_recursive o true files p = Except.ok res ∧
      (⟨f.relPath, outDir p f ++ [fileName f], "PDF (copied)"⟩ : ConversionRecord)
        ∈ res.converted ∧
      (⟨outDir p f ++ [fileName f], f.content⟩ : FileEntry) ∈ res.outputs := by
  refine ⟨processBatch o p files, process_folder_recursive_dir o files p, ?_, ?_⟩
  · rw [processBatch_eq]
    dsimp only
    apply List.mem_flatMap.mpr
    exact ⟨f, hmem, by rw [fileOutcome_pdf_ok o p f hpdf hcopy]; simp⟩
  · rw [processBatch_eq]
    dsimp only
    apply List.mem_flatMap.mpr
    exact ⟨f, hmem, by rw [fileOutcome_pdf_ok o p f hpdf hcopy]; simp⟩

/-- Concrete input file `docs/x.pdf` for the closed witnesses. -/
def demoPdf : FileEntry := ⟨["docs", "x.pdf"], [5, 6]⟩

theorem c2_pdf_copied_byte_identical_witness :
    demoPdf ∈ [demoPdf] ∧
    strLower (pySuffix (fileName demoPdf)) = ".pdf" ∧
    demoOracle.copyOk demoPdf.relPath = true ∧
    (∃ res,
      process_folder_recursive demoOracle true [demoPdf] true = Except.ok res ∧
      (⟨demoPdf.relPath, outDir true demoPdf ++ [fileName demoPdf],
        "PDF (copied)"⟩ : ConversionRecord) ∈ res.converted ∧
      (⟨outDir true demoPdf ++ [fileName demoPdf], demoPdf.content⟩ : FileEntry)
        ∈ res.outputs) :=
  ⟨by simp, by decide, by decide,
   c2_pdf_copied_byte_identical demoOracle [demoPdf] true demoPdf
     (by simp) (by decide) (by decide)⟩

/-- C3: For every processed file (every `ConversionRecord`): when structure
preservation is requested its produced path has exactly the input file's
relative directory chain, and when flattening is requested its produced path
sits directly under the output root. -/
theorem c3_structure_mirrored_or_flat (o : Oracle) (files : List FileEntry)
    (p : Bool) (res : BatchResult)
    (hres : process_folder_recursive o true files p = Except.ok res) :
    ∀ c ∈ res.converted,
      (p = true → c.pdf.dropLast = c.original.dropLast) ∧
      (p = false → c.pdf.dropLast = []) := by
  rw [process_folder_recursive_dir] at hres
  cases hres
  intro c hc
  rw [processBatch_eq] at hc
  dsimp only at hc
  rcases List.mem_flatMap.mp hc with ⟨g, hg, hcg⟩
  rcases converted_pdf_shape o p g c hcg with ⟨nm, hnm⟩
  have horig := converted_original o p g c hcg
  constructor
  · intro hp
    subst hp
    rw [hnm, List.dropLast_concat, horig]
    rfl
  · intro hp
    subst hp
    rw [hnm, List.dropLast_concat]
    rfl

theorem c3_structure_mirrored_or_flat_witness :
    process_folder_recursive demoOracle true [demoDocx] true
      = Except.ok (processBatch demoOracle true [demoDocx]) ∧
    ∀ c ∈ (processBatch demoOracle true [demoDocx]).converted,
      (true = true → c.pdf.dropLast = c.original.dropLast) ∧
      (true = false → c.pdf.dropLast = []) :=
  ⟨rfl,
   c3_structure_mirrored_or_flat demoOracle [demoDocx] true
     (processBatch demoOracle true [demoDocx]) rfl⟩

/-- C5: For every file in a batch, a failure converting or copying that
single file is recorded as a skip entry carrying that file's relative path,
and every other file of the batch (before or after it) still contributes its
own outcome — the batch is never aborted by a per-file failure. -/
theorem c5_per_file_failure_skips_and_continues (o : Oracle) (p : Bool)
    (pre post : List FileEntry) (f : FileEntry)
    (hfail :
      (is_valid_office_file (fileName f) = true ∧
        convert_file_to_pdf o f (outDir p f) = none) ∨
      (strLower (pySuffix (fileName f)) = ".pdf" ∧
        o.copyOk f.relPath = false)) :
    ∃ res,
      process_folder_recursive o true (pre ++ f :: post) p = Except.ok res ∧
      res.skipped =
        pre.flatMap (fun g => (fileOutcome o p g).skipped) ++
          f.relPath :: post.flatMap (fun g => (fileOutcome o p g).skipped) ∧
      res.converted =
        pre.flatMap (fun g => (fileOutcome o p g).converted) ++
          post.flatMap (fun g => (fileOutcome o p g).converted) := by
  have hout : fileOutcome o p f = ⟨[], [f.relPath], []⟩ := by
    rcases hfail with ⟨h1, h2⟩ | ⟨h1, h2⟩
    · exact fileOutcome_office_fail o p f h1 h2
    · exact fileOutcome_pdf_fail o p f h1 h2
  refine ⟨_, process_folder_recursive_dir o _ p, ?_, ?_⟩
  · rw [processBatch_eq]
    dsimp only
    rw [List.flatMap_append, List.flatMap_cons, hout]
    simp
  · rw [processBatch_eq]
    dsimp only
    rw [List.flatMap_append, List.flatMap_cons, hout]
    simp

/-- A collaborator assignment where every conversion and every copy fails. -/
def failOracle : Oracle := ⟨fun _ => none, fun _ => none, fun _ => false⟩

theorem c5_per_file_failure_skips_and_continues_witness :
    ((is_valid_office_file (fileName demoDocx) = true ∧
        convert_file_to_pdf failOracle demoDocx (outDir true demoDocx) = none) ∨
      (strLower (pySuffix (fileName demoDocx)) = ".pdf" ∧
        failOracle.copyOk demoDocx.relPath = false)) ∧
    (∃ res,
      process_folder_recursive failOracle true
        ([demoPdf] ++ demoDocx :: [⟨["t", "u.pptx"], [3]⟩]) true = Except.ok res ∧
      res.skipped =
        [demoPdf].flatMap (fun g => (fileOutcome failOracle true g).skipped) ++
          demoDocx.relPath ::
            [⟨["t", "u.pptx"], [3]⟩].flatMap
              (fun g => (fileOutcome failOracle true g).skipped) ∧
      res.converted =
        [demoPdf].flatMap (fun g => (fileOutcome failOracle true g).converted) ++
          [⟨["t", "u.pptx"], [3]⟩].flatMap
            (fun g => (fileOutcome failOracle true g).converted)) :=
  ⟨Or.inl ⟨by decide, by decide⟩,
   c5_per_file_failure_skips_and_continues failOracle true
     [demoPdf] [⟨["t", "u.pptx"], [3]⟩] demoDocx
     (Or.inl ⟨by decide, by decide⟩)⟩

theorem other_converted_nil (o : Oracle) (p : Bool) (f : FileEntry)
    (hnz : fileName f ≠ "uploaded.zip")
    (hoff : is_valid_office_file (fileName f) = false)
    (hpdf : strLower (pySuffix (fileName f)) ≠ ".pdf") :
    (fileOutcome o p f).converted = [] := by
  by_cases hdot : startsDot (fileName f) = true
  · rw [fileOutcome_other_ignored o p f hnz hoff hpdf (Or.inl hdot)]
  · by_cases hallow : [".txt", ".md", ".log"].contains
        (strLower (pySuffix (fileName f))) = true
    · rw [fileOutcome_other_ignored o p f hnz hoff hpdf (Or.inr hallow)]
    · rw [fileOutcome_other_skip o p f hnz hoff hpdf
        (Bool.eq_false_iff.mpr hdot) (Bool.eq_false_iff.mpr hallow)]

theorem skipped_count_flatMap (o : Oracle) (p : Bool) (files : List FileEntry)
    (f : FileEntry) (hnodup : (files.map FileEntry.relPath).Nodup)
    (hmem : f ∈ files) :
    (files.flatMap (fun g => (fileOutcome o p g).skipped)).count f.relPath
      = (fileOutcome o p f).skipped.count f.relPath := by
  induction files with
  | nil => cases hmem
  | cons g gs ih =>
    rw [List.map_cons, List.nodup_cons] at hnodup
    rw [List.flatMap_cons, List.count_append]
    rcases List.mem_cons.mp hmem with he | hm
    · subst he
      have h0 : (gs.flatMap (fun g => (fileOutcome o p g).skipped)).count
          f.relPath = 0 := by
        rw [List.count_eq_zero]
        intro hc
        rcases List.mem_flatMap.mp hc with ⟨g, hg, hcg⟩
        rw [skipped_eq o p g _ hcg] at hnodup
        exact hnodup.1 (List.mem_map_of_mem FileEntry.relPath hg)
      rw [h0, Nat.add_zero]
    · have h0 : (fileOutcome o p g).skipped.count f.relPath = 0 := by
        rw [List.count_eq_zero]
        intro hc
        have heq := skipped_eq o p g _ hc
        exact hnodup.1 (heq ▸ List.mem_map_of_mem FileEntry.relPath hm)
      rw [h0, ih hnodup.2 hm, Nat.zero_add]

theorem mem_skipped_self (o : Oracle) (p : Bool) (files : List FileEntry)
    (f : FileEntry)
    (hnodup : (files.map FileEntry.relPath).Nodup) (hmem : f ∈ files)
    (hs : f.relPath ∈ files.flatMap (fun g => (fileOutcome o p g).skipped)) :
    f.relPath ∈ (fileOutcome o p f).skipped := by
  rcases List.mem_flatMap.mp hs with ⟨g, hg, hsg⟩
  have : g = f := by
    apply List.inj_on_of_nodup_map hnodup hg hmem
    exact (skipped_eq o p g _ hsg).symm
  exact this ▸ hsg

/-- C6 counterexample: a regular file named `uploaded.zip` has extension
`.zip` (outside the office and `.pdf` sets), does not begin with `.`, and its
extension is not `.txt`/`.md`/`.log`, yet the batch records nothing for it —
it is silently excluded rather than listed as skipped. -/
theorem c6_uploaded_zip_not_skipped :
    is_valid_office_file "uploaded.zip" = false ∧
    strLower (pySuffix "uploaded.zip") ≠ ".pdf" ∧
    startsDot "uploaded.zip" = false ∧
    [".txt", ".md", ".log"].contains (strLower (pySuffix "uploaded.zip"))
      = false ∧
    (processBatch demoOracle true [⟨["uploaded.zip"], [1]⟩]).skipped = [] ∧
    (processBatch demoOracle true [⟨["uploaded.zip"], [1]⟩]).converted = [] := by
  decide

/-- C6 (amended): For every regular file whose extension is not in
{`.doc`, `.docx`, `.ppt`, `.pptx`, `.pdf`} *and whose name is not the
reserved `uploaded.zip` (which is excluded from processing entirely)*: it is
recorded in the skip list exactly once, except that files with extension
`.txt`, `.md` or `.log` (case-insensitive) and files whose name begins with
`.` are silently ignored — neither converted nor listed as skipped. -/
theorem c6_unsupported_skipped_or_ignored (o : Oracle) (files : List FileEntry)
    (p : Bool) (f : FileEntry)
    (hnodup : (files.map FileEntry.relPath).Nodup) (hmem : f ∈ files)
    (hnz : fileName f ≠ "uploaded.zip")
    (hoff : is_valid_office_file (fileName f) = false)
    (hpdf : strLower (pySuffix (fileName f)) ≠ ".pdf") :
    ∃ res, process_folder_recursive o true files p = Except.ok res ∧
      ((startsDot (fileName f) = false ∧
          [".txt", ".md", ".log"].contains (strLower (pySuffix (fileName f)))
            = false) →
        res.skipped.count f.relPath = 1) ∧
      ((startsDot (fileName f) = true ∨
          [".txt", ".md", ".log"].contains (strLower (pySuffix (fileName f)))
            = true) →
        f.relPath ∉ res.skipped) ∧
      (∀ c ∈ res.converted, c.original ≠ f.relPath) := by
  refine ⟨processBatch o p files, process_folder_recursive_dir o files p,
    ?_, ?_, ?_⟩
  · intro hrep
    rw [processBatch_eq]
    dsimp only
    rw [skipped_count_flatMap o p files f hnodup hmem,
      fileOutcome_other_skip o p f hnz hoff hpdf hrep.1 hrep.2]
    simp
  · intro hrep hin
    rw [processBatch_eq] at hin
    dsimp only at hin
    have := mem_skipped_self o p files f hnodup hmem hin
    rw [fileOutcome_other_ignored o p f hnz hoff hpdf hrep] at this
    cases this
  · intro c hc horig
    rw [processBatch_eq] at hc
    dsimp only at hc
    have := mem_converted_of_orig o p files f c hnodup hmem hc horig
    rw [other_converted_nil o p f hnz hoff hpdf] at this
    cases this

/-- Concrete input file `notes.csv` for the closed witnesses. -/
def demoCsv : FileEntry := ⟨["notes.csv"], [7]⟩

theorem c6_unsupported_skipped_or_ignored_witness :
    ([demoCsv, ⟨["z.log"], [4]⟩].map FileEntry.relPath).Nodup ∧
    demoCsv ∈ [demoCsv, ⟨["z.log"], [4]⟩] ∧
    fileName demoCsv ≠ "uploaded.zip" ∧
    is_valid_office_file (fileName demoCsv) = false ∧
    strLower (pySuffix (fileName demoCsv)) ≠ ".pdf" ∧
    (∃ res, process_folder_recursive demoOracle true
        [demoCsv, ⟨["z.log"], [4]⟩] true = Except.ok res ∧
      ((startsDot (fileName demoCsv) = false ∧
          [".txt", ".md", ".log"].contains
            (strLower (pySuffix (fileName demoCsv))) = false) →
        res.skipped.count demoCsv.relPath = 1) ∧
      ((startsDot (fileName demoCsv) = true ∨
          [".txt", ".md", ".log"].contains
            (strLower (pySuffix (fileName demoCsv))) = true) →
        demoCsv.relPath ∉ res.skipped) ∧
      (∀ c ∈ res.converted, c.original ≠ demoCsv.relPath)) :=
  ⟨by decide, by simp, by decide, by decide, by decide,
   c6_unsupported_skipped_or_ignored demoOracle [demoCsv, ⟨["z.log"], [4]⟩]
     true demoCsv (by decide) (by simp) (by decide) (by decide) (by decide)⟩

/-- C7: An invalid (non-directory) traversal root raises the single batch
error with no partial results, and an upload `zipfile.is_zipfile` rejects
surfaces a single displayed error with no ConversionRecords and no
SkipRecords — nothing is processed. -/
theorem c7_batch_fatal_no_partial_results (o : Oracle) (files : List FileEntry)
    (p : Bool) (z : ZipUpload) (hz : z.isZip = false) :
    process_folder_recursive o false files p
      = Except.error "The provided path is not a folder." ∧
    handle_uploaded_zip o z p = ⟨true, [], []⟩ := by
  refine ⟨rfl, ?_⟩
  unfold handle_uploaded_zip
  rw [if_pos]
  rw [hz]
  exact Bool.false_ne_true

/-- An upload rejected by `zipfile.is_zipfile`. -/
def badZip : ZipUpload := ⟨false, [⟨["a.docx"], [1]⟩]⟩

theorem c7_batch_fatal_no_partial_results_witness :
    badZip.isZip = false ∧
    (process_folder_recursive demoOracle false [demoDocx] true
      = Except.error "The provided path is not a folder." ∧
    handle_uploaded_zip demoOracle badZip true = ⟨true, [], []⟩) :=
  ⟨by decide,
   c7_batch_fatal_no_partial_results demoOracle [demoDocx] true badZip rfl⟩

theorem batch_excludes_name (o : Oracle) (p : Bool) (files : List FileEntry)
    (f : FileEntry)
    (hnodup : (files.map FileEntry.relPath).Nodup) (hmem : f ∈ files)
    (hname : fileName f = "uploaded.zip") :
    (∀ c ∈ (processBatch o p files).converted, c.original ≠ f.relPath) ∧
    f.relPath ∉ (processBatch o p files).skipped := by
  constructor
  · intro c hc horig
    rw [processBatch_eq] at hc
    dsimp only at hc
    have := mem_converted_of_orig o p files f c hnodup hmem hc horig
    rw [fileOutcome_excluded o p f hname] at this
    cases this
  · intro hin
    rw [processBatch_eq] at hin
    dsimp only at hin
    have := mem_skipped_self o p files f hnodup hmem hin
    rw [fileOutcome_excluded o p f hname] at this
    cases this

/-- C10: Any regular file named exactly `uploaded.zip`, at any depth, is
excluded from processing entirely — neither converted/copied nor recorded as
skipped — both in a direct traversal and in the upload pipelines, where the
staged file materialized from a user-supplied item of that name is likewise
dropped. -/
theorem c10_uploaded_zip_always_excluded :
    (∀ (o : Oracle) (p : Bool) (files : List FileEntry) (f : FileEntry),
      (files.map FileEntry.relPath).Nodup → f ∈ files →
      fileName f = "uploaded.zip" →
      ∃ res, process_folder_recursive o true files p = Except.ok res ∧
        (∀ c ∈ res.converted, c.original ≠ f.relPath) ∧
        f.relPath ∉ res.skipped) ∧
    (∀ (o : Oracle) (p : Bool) (up : List UploadedItem) (u : UploadedItem),
      ((stagedFiles up).map FileEntry.relPath).Nodup → u ∈ up →
      (stagePath u.name).getLastD "" = "uploaded.zip" →
      (∀ c ∈ (process_uploaded_files_with_structure o up p).converted,
        c.original ≠ stagePath u.name) ∧
      stagePath u.name ∉ (process_uploaded_files_with_structure o up p).skipped) := by
  constructor
  · intro o p files f hnodup hmem hname
    exact ⟨processBatch o p files, process_folder_recursive_dir o files p,
      batch_excludes_name o p files f hnodup hmem hname⟩
  · intro o p up u hnodup hu hname
    have hmem : (⟨stagePath u.name, u.content⟩ : FileEntry) ∈ stagedFiles up :=
      List.mem_map_of_mem _ hu
    exact batch_excludes_name o p (stagedFiles up)
      ⟨stagePath u.name, u.content⟩ hnodup hmem hname

theorem c10_uploaded_zip_always_excluded_witness :
    (([⟨["d", "uploaded.zip"], [9]⟩] : List FileEntry).map
      FileEntry.relPath).Nodup ∧
    (⟨["d", "uploaded.zip"], [9]⟩ : FileEntry) ∈
      ([⟨["d", "uploaded.zip"], [9]⟩] : List FileEntry) ∧
    fileName ⟨["d", "uploaded.zip"], [9]⟩ = "uploaded.zip" ∧
    (∃ res, process_folder_recursive demoOracle true
        [⟨["d", "uploaded.zip"], [9]⟩] true = Except.ok res ∧
      (∀ c ∈ res.converted,
        c.original ≠ (⟨["d", "uploaded.zip"], [9]⟩ : FileEntry).relPath) ∧
      (⟨["d", "uploaded.zip"], [9]⟩ : FileEntry).relPath ∉ res.skipped) ∧
    (((stagedFiles [⟨"uploaded.zip", [2]⟩]).map FileEntry.relPath).Nodup ∧
      (⟨"uploaded.zip", [2]⟩ : UploadedItem) ∈ [⟨"uploaded.zip", [2]⟩] ∧
      (stagePath "uploaded.zip").getLastD "" = "uploaded.zip" ∧
      ((∀ c ∈ (process_uploaded_files_with_structure demoOracle
          [⟨"uploaded.zip", [2]⟩] true).converted,
        c.original ≠ stagePath "uploaded.zip") ∧
      stagePath "uploaded.zip" ∉ (process_uploaded_files_with_structure
        demoOracle [⟨"uploaded.zip", [2]⟩] true).skipped)) :=
  ⟨by decide, by simp, by decide,
   c10_uploaded_zip_always_excluded.1 demoOracle true
     [⟨["d", "uploaded.zip"], [9]⟩] ⟨["d", "uploaded.zip"], [9]⟩
     (by decide) (by simp) (by decide),
   by decide, by simp, by decide,
   c10_uploaded_zip_always_excluded.2 demoOracle true
     [⟨"uploaded.zip", [2]⟩] ⟨"uploaded.zip", [2]⟩
     (by decide) (by simp) (by decide)⟩

/-- C9 fails on the code: in the folder-upload pipeline
(`process_uploaded_files_with_structure`) the conversion succeeds and a
`ConversionRecord` is handed to the caller, but the `return` statement inside
the `with tempfile.TemporaryDirectory()` block lets the context manager
delete the output root first, so no file — in particular not the record's
produced path `a.pdf` — exists under the returned output root at the time
the record is reported. -/
theorem c9_record_reported_after_output_deleted :
    (process_uploaded_files_with_structure demoOracle
      [⟨"a.docx", [1]⟩] true).converted
      = [⟨["a.docx"], ["a.pdf"], ".DOCX"⟩] ∧
    (process_uploaded_files_with_structure demoOracle
      [⟨"a.docx", [1]⟩] true).outputFiles = [] := by
  decide

theorem splitChars_cons (p : Char → Bool) (c : Char) (cs : List Char) :
    splitChars p (c :: cs) =
      match splitChars p cs with
      | [] => [[]]
      | g :: gs => if p c then [] :: g :: gs else (c :: g) :: gs := rfl

theorem splitChars_ne_nil (p : Char → Bool) (cs : List Char) :
    splitChars p cs ≠ [] := by
  cases cs with
  | nil => simp [splitChars]
  | cons c cs =>
    rw [splitChars_cons]
    cases hs : splitChars p cs with
    | nil => simp
    | cons g gs =>
      dsimp only
      split <;> simp

theorem splitChars_sep_free (p : Char → Bool) (cs : List Char)
    (h : ∀ c ∈ cs, p c = false) : splitChars p cs = [cs] := by
  induction cs with
  | nil => rfl
  | cons c cs ih =>
    rw [splitChars_cons, ih (fun d hd => h d (List.mem_cons_of_mem c hd))]
    dsimp only
    rw [if_neg (by simp [h c (List.mem_cons_self c cs)])]

theorem splitChars_append (p : Char → Bool) (xs ys : List Char) (d : Char)
    (hxs : ∀ c ∈ xs, p c = false) (hd : p d = true) :
    splitChars p (xs ++ d :: ys) = xs :: splitChars p ys := by
  induction xs with
  | nil =>
    rw [List.nil_append, splitChars_cons]
    cases hs : splitChars p ys with
    | nil => exact absurd hs (splitChars_ne_nil p ys)
    | cons g gs =>
      dsimp only
      rw [if_pos hd]
  | cons x xs ih =>
    rw [List.cons_append, splitChars_cons,
      ih (fun c hc => hxs c (List.mem_cons_of_mem x hc))]
    dsimp only
    rw [if_neg (by simp [hxs x (List.mem_cons_self x xs)])]

theorem toList_strMk (xs : List Char) : (String.mk xs).toList = xs := rfl

theorem strMk_toList (s : String) : String.mk s.toList = s := by
  cases s
  rfl

theorem splitChars_normalize (cs : List Char) :
    splitChars (fun c => c = '/')
        (cs.map (fun c => if c = '\\' then '/' else c))
      = splitChars (fun c => c = '/' ∨ c = '\\') cs := by
  induction cs with
  | nil => rfl
  | cons c cs ih =>
    rw [List.map_cons, splitChars_cons, splitChars_cons, ih]
    cases hs : splitChars (fun c => c = '/' ∨ c = '\\') cs with
    | nil => exact absurd hs (splitChars_ne_nil _ cs)
    | cons g gs =>
      dsimp only
      by_cases h1 : c = '\\'
      · subst h1
        rw [if_pos rfl]
        rw [if_pos (by decide), if_pos (by decide)]
      · rw [if_neg h1]
        by_cases h2 : c = '/'
        · subst h2
          rw [if_pos (by decide), if_pos (by decide)]
        · rw [if_neg (by simp [h2]), if_neg (by simp [h1, h2])]

/-- The splitter the spec describes: cut the uploaded name at every `/` and
every `\` simultaneously (empty components are dropped, as `pathlib` does
when the segments are materialized). -/
def splitEitherSep (name : String) : List String :=
  ((splitChars (fun c => c = '/' ∨ c = '\\') name.toList).map String.mk).filter
    (fun seg => seg ≠ "")

theorem pathSegs_normalizeSeps (name : String) :
    pathSegs (normalizeSeps name) = splitEitherSep name := by
  unfold pathSegs splitEitherSep normalizeSeps
  rw [toList_strMk, splitChars_normalize]

/-- C4: Every uploaded item is materialized at its staged path; when the name
contains `/` or `\` that staged path is exactly the name split on either
separator (all segments but the last being the created directory chain, the
last the file placed inside it), and when it contains no separator the item
sits directly at the staging root under its own name. -/
theorem c4_staging_reconstructs_structure (up : List UploadedItem)
    (u : UploadedItem) (hmem : u ∈ up) :
    (⟨stagePath u.name, u.content⟩ : FileEntry) ∈ stagedFiles up ∧
    ((u.name.toList.contains '\\' = true ∨ u.name.toList.contains '/' = true) →
      stagePath u.name = splitEitherSep u.name) ∧
    (u.name.toList.contains '\\' = false →
      u.name.toList.contains '/' = false →
      stagePath u.name = [u.name]) := by
  refine ⟨List.mem_map_of_mem _ hmem, ?_, ?_⟩
  · intro h
    unfold stagePath
    rw [if_pos h]
    exact pathSegs_normalizeSeps u.name
  · intro h1 h2
    unfold stagePath
    rw [if_neg (by rw [h1, h2]; simp)]

/-- Concrete uploaded item whose name embeds a directory chain. -/
def demoNested : UploadedItem := ⟨"a/b/c/notes.pptx", [8]⟩

theorem c4_staging_reconstructs_structure_witness :
    demoNested ∈ [demoNested] ∧
    ((⟨stagePath demoNested.name, demoNested.content⟩ : FileEntry)
        ∈ stagedFiles [demoNested] ∧
      ((demoNested.name.toList.contains '\\' = true ∨
          demoNested.name.toList.contains '/' = true) →
        stagePath demoNested.name = splitEitherSep demoNested.name) ∧
      (demoNested.name.toList.contains '\\' = false →
        demoNested.name.toList.contains '/' = false →
        stagePath demoNested.name = [demoNested.name])) ∧
    stagePath "a/b/c/notes.pptx" = ["a", "b", "c", "notes.pptx"] :=
  ⟨by simp,
   c4_staging_reconstructs_structure [demoNested] demoNested (by simp),
   by decide⟩

theorem joinSegs_toList_cons (s t : String) (rest : List String) :
    (joinSegs (s :: t :: rest)).toList
      = s.toList ++ '/' :: (joinSegs (t :: rest)).toList := by
  show (s ++ "/" ++ joinSegs (t :: rest)).toList = _
  rw [strToList_append, strToList_append]
  simp

theorem pathSegs_joinSegs (segs : List String) (hne : segs ≠ [])
    (hv : ∀ s ∈ segs, s ≠ "" ∧ ∀ c ∈ s.toList, c ≠ '/') :
    pathSegs (joinSegs segs) = segs := by
  induction segs with
  | nil => exact absurd rfl hne
  | cons s rest ih =>
    cases rest with
    | nil =>
      unfold pathSegs
      rw [show joinSegs [s] = s from rfl]
      rw [splitChars_sep_free _ s.toList
        (fun c hc => decide_eq_false ((hv s (List.mem_singleton_self s)).2 c hc))]
      rw [List.map_cons, List.map_nil, strMk_toList]
      rw [List.filter_cons_of_pos
        (by simp [(hv s (List.mem_singleton_self s)).1])]
      rfl
    | cons t rest2 =>
      have hs := hv s (List.mem_cons_self s (t :: rest2))
      have ih' := ih (by simp)
        (fun u hu => hv u (List.mem_cons_of_mem s hu))
      unfold pathSegs at ih' ⊢
      rw [joinSegs_toList_cons]
      rw [splitChars_append _ s.toList _ '/'
        (fun c hc => decide_eq_false (hs.2 c hc)) (by decide)]
      rw [List.map_cons, strMk_toList]
      rw [List.filter_cons_of_pos (by simp [hs.1])]
      rw [ih']

/-- C8: Packaging a directory subtree into the archive (every regular file
stored under its `/`-joined relative path) and re-extracting the archive
yields exactly the original files — the same relative paths with the same
byte contents.  The hypotheses say the subtree's paths are genuine
filesystem paths: nonempty chains of nonempty, separator-free segment
names. -/
theorem c8_zip_roundtrip (files : List FileEntry)
    (hv : ∀ f ∈ files, f.relPath ≠ [] ∧
      ∀ s ∈ f.relPath, s ≠ "" ∧ ∀ c ∈ s.toList, c ≠ '/') :
    extractall (create_zip_from_folder files) = files := by
  unfold extractall create_zip_from_folder
  rw [List.map_map]
  refine (List.map_congr_left ?_).trans (List.map_id files)
  intro f hf
  rcases hv f hf with ⟨h1, h2⟩
  show (⟨pathSegs (joinSegs f.relPath), f.content⟩ : FileEntry) = f
  cases f with
  | mk rp ct =>
    dsimp only at h1 h2 ⊢
    rw [pathSegs_joinSegs rp h1 h2]

theorem c8_zip_roundtrip_witness :
    (∀ f ∈ [demoPdf, ⟨["r", "q1.pdf"], [0]⟩], f.relPath ≠ [] ∧
      ∀ s ∈ f.relPath, s ≠ "" ∧ ∀ c ∈ s.toList, c ≠ '/') ∧
    extractall (create_zip_from_folder [demoPdf, ⟨["r", "q1.pdf"], [0]⟩])
      = [demoPdf, ⟨["r", "q1.pdf"], [0]⟩] :=
  ⟨by decide,
   c8_zip_roundtrip [demoPdf, ⟨["r", "q1.pdf"], [0]⟩] (by decide)⟩

end OfficeToPdf
